import Mathlib

/-!
Verification of the `specificproxy` forward-proxy repository.

The Go source is shallowly embedded into Lean:
* `time.Time` / `time.Duration` values become rationals measured in seconds;
* Go `float64` token arithmetic becomes exact rational arithmetic;
* Go `int` becomes `Int`;
* mutation becomes explicit state passing (`Allow` returns the decision
  together with the post-state);
* the process-wide limiter store (a Go map guarded by a mutex) becomes an
  association list together with a creation counter `nextId` that models
  pointer identity of the limiter instances the Go code allocates.
-/

/-- Association-list lookup keyed by strings; models Go map indexing `m[key]`. -/
def alookup {β : Type} : List (String × β) → String → Option β
  | [], _ => none
  | (k, v) :: rest, key => if k = key then some v else alookup rest key

namespace ratelimit

/-- `MethodTokenBucket Method = "token_bucket"` from ratelimit.go. -/
def MethodTokenBucket : String := "token_bucket"

/-- `MethodFixedWindow Method = "fixed_window"` from ratelimit.go. -/
def MethodFixedWindow : String := "fixed_window"

/-- `ResourceKindDomainPath ResourceKind = "domain_path"` from ratelimit.go. -/
def ResourceKindDomainPath : String := "domain_path"

/-- `ResourceKindDomain ResourceKind = "domain"` from ratelimit.go. -/
def ResourceKindDomain : String := "domain"

/-- `DefaultTTL = 5 * time.Minute`, measured in seconds. -/
def DefaultTTL : ℚ := 300

/-- `type TokenBucket struct` from ratelimit.go (mutex dropped; times are
rationals in seconds, `float64` token counts are rationals). -/
structure TokenBucket where
  tokens : ℚ
  maxTokens : ℚ
  refillRate : ℚ
  lastRefill : ℚ
  deriving Repr, DecidableEq

/-- `NewTokenBucket(rate, periodSeconds int)`; `now` models `time.Now()`. -/
def NewTokenBucket (rate periodSeconds : ℤ) (now : ℚ) : TokenBucket where
  tokens := (rate : ℚ)
  maxTokens := (rate : ℚ)
  refillRate := (rate : ℚ) / (periodSeconds : ℚ)
  lastRefill := now

/-- `func (tb *TokenBucket) Allow() bool` from ratelimit.go; returns the
decision together with the mutated bucket. -/
def TokenBucket.Allow (tb : TokenBucket) (now : ℚ) : Bool × TokenBucket :=
  let elapsed : ℚ := now - tb.lastRefill
  let refilled : ℚ := tb.tokens + elapsed * tb.refillRate
  let capped : ℚ := if refilled > tb.maxTokens then tb.maxTokens else refilled
  if capped ≥ 1 then
    (true, { tb with tokens := capped - 1, lastRefill := now })
  else
    (false, { tb with tokens := capped, lastRefill := now })

/-- Bucket state after `k` consecutive `Allow()` calls, all at time `now`. -/
def tbRepeat (tb : TokenBucket) (now : ℚ) : ℕ → TokenBucket
  | 0 => tb
  | k + 1 => ((tbRepeat tb now k).Allow now).2

/-- Result of the `(k+1)`-th consecutive `Allow()` call (0-indexed `k`). -/
def tbNthResult (tb : TokenBucket) (now : ℚ) (k : ℕ) : Bool :=
  ((tbRepeat tb now k).Allow now).1

/-- `type FixedWindow struct` from ratelimit.go (mutex dropped). -/
structure FixedWindow where
  count : ℤ
  maxRequests : ℤ
  windowStart : ℚ
  windowPeriod : ℚ
  deriving Repr, DecidableEq

/-- `NewFixedWindow(rate, periodSeconds int)`; `now` models `time.Now()`. -/
def NewFixedWindow (rate periodSeconds : ℤ) (now : ℚ) : FixedWindow where
  count := 0
  maxRequests := rate
  windowStart := now
  windowPeriod := (periodSeconds : ℚ)

/-- `func (fw *FixedWindow) Allow() bool` from ratelimit.go. -/
def FixedWindow.Allow (fw : FixedWindow) (now : ℚ) : Bool × FixedWindow :=
  let fw1 := if now - fw.windowStart ≥ fw.windowPeriod then
    { fw with windowStart := now, count := 0 } else fw
  if fw1.count < fw1.maxRequests then
    (true, { fw1 with count := fw1.count + 1 })
  else
    (false, fw1)

/-- Window state after `k` consecutive `Allow()` calls, all at time `now`. -/
def fwRepeat (fw : FixedWindow) (now : ℚ) : ℕ → FixedWindow
  | 0 => fw
  | k + 1 => ((fwRepeat fw now k).Allow now).2

/-- Result of the `(k+1)`-th consecutive `Allow()` call (0-indexed `k`). -/
def fwNthResult (fw : FixedWindow) (now : ℚ) (k : ℕ) : Bool :=
  ((fwRepeat fw now k).Allow now).1

/-- The token-bucket invariant stated by the spec: `0 ≤ tokens ≤ maxTokens`. -/
def TBInv (tb : TokenBucket) : Prop := 0 ≤ tb.tokens ∧ tb.tokens ≤ tb.maxTokens

end ratelimit

namespace ratelimit

lemma tbRepeat_fresh (r p : ℤ) (k : ℕ) (hk : (k : ℤ) ≤ r) :
    tbRepeat (NewTokenBucket r p 0) 0 k =
      { tokens := (r : ℚ) - (k : ℚ), maxTokens := (r : ℚ),
        refillRate := (r : ℚ) / (p : ℚ), lastRefill := 0 } := by
  induction k with
  | zero => simp [tbRepeat, NewTokenBucket]
  | succ k ih =>
    have hk' : (k : ℤ) ≤ r := by omega
    have hk1 : (k : ℤ) + 1 ≤ r := by omega
    have hkq : (k : ℚ) + 1 ≤ (r : ℚ) := by exact_mod_cast hk1
    have hknn : (0 : ℚ) ≤ (k : ℚ) := by positivity
    rw [tbRepeat, ih hk']
    simp only [TokenBucket.Allow, sub_self, zero_mul, add_zero]
    have hnotcap : ¬ ((r : ℚ) - (k : ℚ) > (r : ℚ)) := by linarith
    have hone : ((r : ℚ) - (k : ℚ)) ≥ 1 := by linarith
    rw [if_neg hnotcap, if_pos hone]
    have htok : (r : ℚ) - (k : ℚ) - 1 = (r : ℚ) - ((k + 1 : ℕ) : ℚ) := by
      push_cast; ring
    simp only [TokenBucket.mk.injEq, htok]

lemma tbNthResult_fresh_true (r p : ℤ) (k : ℕ) (hk : (k : ℤ) < r) :
    tbNthResult (NewTokenBucket r p 0) 0 k = true := by
  have hk' : (k : ℤ) ≤ r := le_of_lt hk
  have hk1 : (k : ℤ) + 1 ≤ r := hk
  have hkq : (k : ℚ) + 1 ≤ (r : ℚ) := by exact_mod_cast hk1
  have hknn : (0 : ℚ) ≤ (k : ℚ) := by positivity
  unfold tbNthResult
  rw [tbRepeat_fresh r p k hk']
  simp only [TokenBucket.Allow, sub_self, zero_mul, add_zero]
  have hnotcap : ¬ ((r : ℚ) - (k : ℚ) > (r : ℚ)) := by linarith
  have hone : ((r : ℚ) - (k : ℚ)) ≥ 1 := by linarith
  rw [if_neg hnotcap, if_pos hone]

lemma tbNthResult_fresh_false (r p : ℤ) (k : ℕ) (hk : (k : ℤ) = r) :
    tbNthResult (NewTokenBucket r p 0) 0 k = false := by
  have hk' : (k : ℤ) ≤ r := le_of_eq hk
  have hkq : (k : ℚ) = (r : ℚ) := by exact_mod_cast hk
  unfold tbNthResult
  rw [tbRepeat_fresh r p k hk']
  simp only [TokenBucket.Allow, sub_self, zero_mul, add_zero]
  have hzero : (r : ℚ) - (k : ℚ) = 0 := by linarith
  have hnotcap : ¬ ((r : ℚ) - (k : ℚ) > (r : ℚ)) := by
    rw [hzero]
    intro hcon
    have hknn : (0 : ℚ) ≤ (k : ℚ) := by positivity
    linarith
  have hno : ¬ (((r : ℚ) - (k : ℚ)) ≥ 1) := by rw [hzero]; norm_num
  rw [if_neg hnotcap, if_neg hno]

/-- One `Allow()` call described the way the spec describes it: refill by
`elapsed × refillRate` capped at `maxTokens`, then allow-and-decrement
exactly when at least one token is available. -/
lemma tbAllow_spec_shape (tb : TokenBucket) (now : ℚ) :
    ((tb.Allow now).1 = true ↔
        1 ≤ min (tb.tokens + (now - tb.lastRefill) * tb.refillRate) tb.maxTokens) ∧
      (tb.Allow now).2.tokens =
        (if 1 ≤ min (tb.tokens + (now - tb.lastRefill) * tb.refillRate) tb.maxTokens then
          min (tb.tokens + (now - tb.lastRefill) * tb.refillRate) tb.maxTokens - 1
        else min (tb.tokens + (now - tb.lastRefill) * tb.refillRate) tb.maxTokens) := by
  have hmin : (if tb.tokens + (now - tb.lastRefill) * tb.refillRate > tb.maxTokens then
      tb.maxTokens else tb.tokens + (now - tb.lastRefill) * tb.refillRate) =
      min (tb.tokens + (now - tb.lastRefill) * tb.refillRate) tb.maxTokens := by
    rcases le_or_lt (tb.tokens + (now - tb.lastRefill) * tb.refillRate) tb.maxTokens with h | h
    · rw [if_neg (not_lt.mpr h), min_eq_left h]
    · rw [if_pos h, min_eq_right (le_of_lt h)]
  simp only [TokenBucket.Allow, hmin]
  by_cases h1 : min (tb.tokens + (now - tb.lastRefill) * tb.refillRate) tb.maxTokens ≥ 1
  · rw [if_pos h1, if_pos h1]
    simpa using h1
  · rw [if_neg h1, if_neg h1]
    simpa using h1

end ratelimit

open ratelimit in
/-- C1: for every rate `r > 0` and period `p > 0`, a fresh token bucket allows
exactly `r` consecutive `Allow()` calls with no elapsed time — calls
`0, …, r−1` return allow, call `r` (the `(r+1)`-th) denies — and every
`Allow()` call first adds `elapsed × refillRate` tokens capped at `maxTokens`,
then allows and subtracts one token exactly when at least one token remains. -/
theorem c1_token_bucket_exact_rate (r p : ℤ) (hr : 0 < r) (hp : 0 < p) :
    (∀ k : ℕ, (k : ℤ) < r → tbNthResult (NewTokenBucket r p 0) 0 k = true) ∧
      (∀ k : ℕ, (k : ℤ) = r → tbNthResult (NewTokenBucket r p 0) 0 k = false) ∧
      (∀ (tb : TokenBucket) (now : ℚ),
        ((tb.Allow now).1 = true ↔
            1 ≤ min (tb.tokens + (now - tb.lastRefill) * tb.refillRate) tb.maxTokens) ∧
          (tb.Allow now).2.tokens =
            (if 1 ≤ min (tb.tokens + (now - tb.lastRefill) * tb.refillRate) tb.maxTokens then
              min (tb.tokens + (now - tb.lastRefill) * tb.refillRate) tb.maxTokens - 1
            else min (tb.tokens + (now - tb.lastRefill) * tb.refillRate) tb.maxTokens)) :=
  ⟨fun k hk => tbNthResult_fresh_true r p k hk,
   fun k hk => tbNthResult_fresh_false r p k hk,
   fun tb now => tbAllow_spec_shape tb now⟩

open ratelimit in
/-- Witness for C1 at `rate = 2`, `period = 1`: the first two calls allow
and the third denies. -/
theorem c1_token_bucket_exact_rate_witness :
    tbNthResult (NewTokenBucket 2 1 0) 0 1 = true ∧
      tbNthResult (NewTokenBucket 2 1 0) 0 2 = false :=
  ⟨(c1_token_bucket_exact_rate 2 1 (by norm_num) (by norm_num)).1 1 (by norm_num),
   (c1_token_bucket_exact_rate 2 1 (by norm_num) (by norm_num)).2.1 2 (by norm_num)⟩

namespace ratelimit

lemma fwRepeat_steady (c r : ℤ) (now p : ℚ) (hp : 0 < p) (k : ℕ) (hk : c + (k : ℤ) ≤ r) :
    fwRepeat ⟨c, r, now, p⟩ now k = ⟨c + (k : ℤ), r, now, p⟩ := by
  induction k with
  | zero => simp [fwRepeat]
  | succ k ih =>
    have hk' : c + (k : ℤ) ≤ r := by omega
    have hklt : c + (k : ℤ) < r := by omega
    have hnr : ¬ ((0 : ℚ) ≥ p) := not_le.mpr hp
    have hcast : c + ((k + 1 : ℕ) : ℤ) = c + (k : ℤ) + 1 := by push_cast; ring
    rw [fwRepeat, ih hk', hcast]
    simp only [FixedWindow.Allow, sub_self]
    rw [if_neg hnr]
    dsimp only
    rw [if_pos hklt]

lemma fwNthResult_steady_true (c r : ℤ) (now p : ℚ) (hp : 0 < p) (k : ℕ)
    (hk : c + (k : ℤ) < r) :
    fwNthResult ⟨c, r, now, p⟩ now k = true := by
  have hnr : ¬ ((0 : ℚ) ≥ p) := not_le.mpr hp
  unfold fwNthResult
  rw [fwRepeat_steady c r now p hp k (le_of_lt hk)]
  simp only [FixedWindow.Allow, sub_self]
  rw [if_neg hnr]
  dsimp only
  rw [if_pos hk]

lemma fwNthResult_steady_false (c r : ℤ) (now p : ℚ) (hp : 0 < p) (k : ℕ)
    (hle : c + (k : ℤ) ≤ r) (hk : r ≤ c + (k : ℤ)) :
    fwNthResult ⟨c, r, now, p⟩ now k = false := by
  have hnr : ¬ ((0 : ℚ) ≥ p) := not_le.mpr hp
  have hno : ¬ (c + (k : ℤ) < r) := by omega
  unfold fwNthResult
  rw [fwRepeat_steady c r now p hp k hle]
  simp only [FixedWindow.Allow, sub_self]
  rw [if_neg hnr]
  dsimp only
  rw [if_neg hno]

/-- When the reset branch fires, a call behaves exactly like a call on a
window whose counter is zero and whose start is `now`. -/
lemma fwAllow_reset (fw : FixedWindow) (now : ℚ)
    (h : now - fw.windowStart ≥ fw.windowPeriod) :
    fw.Allow now = FixedWindow.Allow ⟨0, fw.maxRequests, now, fw.windowPeriod⟩ now := by
  by_cases h2 : now - now ≥ fw.windowPeriod
  · simp only [FixedWindow.Allow, if_pos h, if_pos h2]
  · simp only [FixedWindow.Allow, if_pos h, if_neg h2]

lemma fwRepeat_shift (fw : FixedWindow) (now : ℚ) (k : ℕ) :
    fwRepeat fw now (k + 1) = fwRepeat (fw.Allow now).2 now k := by
  induction k with
  | zero => rfl
  | succ k ih => rw [fwRepeat, ih, fwRepeat]

lemma fwNthResult_reset (fw : FixedWindow) (now : ℚ)
    (h : now - fw.windowStart ≥ fw.windowPeriod) (k : ℕ) :
    fwNthResult fw now k =
      fwNthResult ⟨0, fw.maxRequests, now, fw.windowPeriod⟩ now k := by
  cases k with
  | zero => unfold fwNthResult fwRepeat; rw [fwAllow_reset fw now h]
  | succ k =>
    unfold fwNthResult
    rw [fwRepeat_shift, fwRepeat_shift, fwAllow_reset fw now h]

end ratelimit

open ratelimit in
/-- C2: for every rate `r > 0` and period `p > 0`, a fresh fixed-window
limiter allows exactly `r` calls within one window and denies the next one
in the same window; a call with `now − windowStart ≥ windowPeriod` resets
`windowStart` to `now` and the count to 0 (then immediately consumes one
slot), after which `r` calls made at `now` succeed. -/
theorem c2_fixed_window_exact_rate (r p : ℤ) (hr : 0 < r) (hp : 0 < p) :
    (∀ k : ℕ, (k : ℤ) < r → fwNthResult (NewFixedWindow r p 0) 0 k = true) ∧
      (∀ k : ℕ, (k : ℤ) = r → fwNthResult (NewFixedWindow r p 0) 0 k = false) ∧
      (∀ (fw : FixedWindow) (now : ℚ), now - fw.windowStart ≥ fw.windowPeriod →
        (fw.Allow now).2.windowStart = now ∧
          (fw.Allow now).2.count = (if 0 < fw.maxRequests then 1 else 0)) ∧
      (∀ (fw : FixedWindow) (now : ℚ), now - fw.windowStart ≥ fw.windowPeriod →
        fw.maxRequests = r → fw.windowPeriod = (p : ℚ) →
        ∀ k : ℕ, (k : ℤ) < r → fwNthResult fw now k = true) := by
  have hpq : (0 : ℚ) < (p : ℚ) := by exact_mod_cast hp
  refine ⟨?_, ?_, ?_, ?_⟩
  · intro k hk
    have : NewFixedWindow r p 0 = ⟨0, r, 0, (p : ℚ)⟩ := rfl
    rw [this]
    exact fwNthResult_steady_true 0 r 0 (p : ℚ) hpq k (by omega)
  · intro k hk
    have : NewFixedWindow r p 0 = ⟨0, r, 0, (p : ℚ)⟩ := rfl
    rw [this]
    exact fwNthResult_steady_false 0 r 0 (p : ℚ) hpq k (by omega) (by omega)
  · intro fw now h
    simp only [FixedWindow.Allow, if_pos h]
    by_cases hmax : (0 : ℤ) < fw.maxRequests
    · rw [if_pos hmax, if_pos hmax]
      exact ⟨rfl, rfl⟩
    · rw [if_neg hmax, if_neg hmax]
      exact ⟨rfl, rfl⟩
  · intro fw now h hmax hper k hk
    rw [fwNthResult_reset fw now h k, hmax, hper]
    exact fwNthResult_steady_true 0 r now (p : ℚ) hpq k (by omega)

open ratelimit in
/-- Witness for C2 at `rate = 2`, `period = 1`: two calls allow, the third
denies, and after a full window has elapsed a call resets the window. -/
theorem c2_fixed_window_exact_rate_witness :
    fwNthResult (NewFixedWindow 2 1 0) 0 1 = true ∧
      fwNthResult (NewFixedWindow 2 1 0) 0 2 = false ∧
      fwNthResult (⟨2, 2, 0, 1⟩ : FixedWindow) 5 1 = true :=
  ⟨(c2_fixed_window_exact_rate 2 1 (by norm_num) (by norm_num)).1 1 (by norm_num),
   (c2_fixed_window_exact_rate 2 1 (by norm_num) (by norm_num)).2.1 2 (by norm_num),
   (c2_fixed_window_exact_rate 2 1 (by norm_num) (by norm_num)).2.2.2
     ⟨2, 2, 0, 1⟩ 5 (by norm_num) rfl rfl 1 (by norm_num)⟩

open ratelimit in
/-- C8: for a token bucket created with rate `r > 0` the invariant
`0 ≤ tokens ≤ maxTokens` holds after construction, the constructed refill
rate is non-negative whenever the period is also positive, and the invariant
is preserved by every `Allow()` call with non-negative elapsed time. -/
theorem c8_token_bucket_invariant :
    (∀ (r p : ℤ) (now : ℚ), 0 < r → TBInv (NewTokenBucket r p now)) ∧
      (∀ (r p : ℤ) (now : ℚ), 0 < r → 0 < p →
        0 ≤ (NewTokenBucket r p now).refillRate) ∧
      (∀ (tb : TokenBucket) (now : ℚ), TBInv tb → 0 ≤ tb.refillRate →
        tb.lastRefill ≤ now → TBInv (tb.Allow now).2) := by
  refine ⟨?_, ?_, ?_⟩
  · intro r p now hr
    have : (0 : ℚ) ≤ (r : ℚ) := by exact_mod_cast le_of_lt hr
    exact ⟨this, le_refl _⟩
  · intro r p now hr hp
    have hrq : (0 : ℚ) ≤ (r : ℚ) := by exact_mod_cast le_of_lt hr
    have hpq : (0 : ℚ) ≤ (p : ℚ) := by exact_mod_cast le_of_lt hp
    exact div_nonneg hrq hpq
  · intro tb now hinv hrate helapsed
    obtain ⟨h0, hmax⟩ := hinv
    have helq : (0 : ℚ) ≤ now - tb.lastRefill := by linarith
    have hrefill : tb.tokens ≤ tb.tokens + (now - tb.lastRefill) * tb.refillRate := by
      nlinarith
    have h0' : (0 : ℚ) ≤ tb.tokens + (now - tb.lastRefill) * tb.refillRate := by linarith
    simp only [TokenBucket.Allow]
    by_cases hcap : tb.tokens + (now - tb.lastRefill) * tb.refillRate > tb.maxTokens
    · rw [if_pos hcap]
      have hmax0 : (0 : ℚ) ≤ tb.maxTokens := by linarith
      by_cases hone : tb.maxTokens ≥ 1
      · rw [if_pos hone]
        exact ⟨by simpa using by linarith, by simpa using by linarith⟩
      · rw [if_neg hone]
        exact ⟨by simpa using hmax0, by simpa using le_refl tb.maxTokens⟩
    · rw [if_neg hcap]
      have hle : tb.tokens + (now - tb.lastRefill) * tb.refillRate ≤ tb.maxTokens := not_lt.mp hcap
      by_cases hone : tb.tokens + (now - tb.lastRefill) * tb.refillRate ≥ 1
      · rw [if_pos hone]
        exact ⟨by simpa using by linarith, by simpa using by linarith⟩
      · rw [if_neg hone]
        exact ⟨by simpa using h0', by simpa using hle⟩

open ratelimit in
/-- Witness for C8: the invariant holds for a fresh bucket with rate 1, its
refill rate is non-negative, and one call at elapsed time 1 preserves it. -/
theorem c8_token_bucket_invariant_witness :
    TBInv (NewTokenBucket 1 1 0) ∧
      0 ≤ (NewTokenBucket 1 1 0).refillRate ∧
      TBInv ((NewTokenBucket 1 1 0).Allow 1).2 :=
  ⟨c8_token_bucket_invariant.1 1 1 0 (by norm_num),
   c8_token_bucket_invariant.2.1 1 1 0 (by norm_num) (by norm_num),
   c8_token_bucket_invariant.2.2 (NewTokenBucket 1 1 0) 1
     (c8_token_bucket_invariant.1 1 1 0 (by norm_num))
     (c8_token_bucket_invariant.2.1 1 1 0 (by norm_num) (by norm_num))
     (by norm_num [NewTokenBucket])⟩

/-!
Decimal-representation facts about `Nat.repr` / `Int.repr`.  They justify
that `fmt.Sprintf("%s|%s|%s|%d|%d", …)` (the limiter key) determines the
method, rate, and period for a fixed egress address and resource key:
decimal digit strings never contain a separator `'|'`, and decimal
rendering is injective.
-/

/-- Numeric value of a decimal digit character. -/
def digitVal (c : Char) : ℕ := c.toNat - 48

lemma digitVal_digitChar : ∀ m : ℕ, m < 10 → digitVal (Nat.digitChar m) = m := by decide

lemma digitChar_ne_pipe : ∀ m : ℕ, m < 10 → Nat.digitChar m ≠ '|' := by decide

lemma digitChar_ne_dash : ∀ m : ℕ, m < 10 → Nat.digitChar m ≠ '-' := by decide

lemma toDigitsCore_chars (fuel : ℕ) :
    ∀ (n : ℕ) (ds : List Char), ∀ c ∈ Nat.toDigitsCore 10 fuel n ds,
      c ∈ ds ∨ ∃ m, m < 10 ∧ c = Nat.digitChar m := by
  induction fuel with
  | zero =>
    intro n ds c hc
    exact Or.inl hc
  | succ fuel ih =>
    intro n ds c hc
    simp only [Nat.toDigitsCore] at hc
    by_cases h : n / 10 = 0
    · rw [if_pos h] at hc
      rcases List.mem_cons.mp hc with h1 | h1
      · exact Or.inr ⟨n % 10, Nat.mod_lt n (by norm_num), h1⟩
      · exact Or.inl h1
    · rw [if_neg h] at hc
      rcases ih (n / 10) (Nat.digitChar (n % 10) :: ds) c hc with h1 | h1
      · rcases List.mem_cons.mp h1 with h2 | h2
        · exact Or.inr ⟨n % 10, Nat.mod_lt n (by norm_num), h2⟩
        · exact Or.inl h2
      · exact Or.inr h1

/-- Read a digit list back as a number, most significant digit first. -/
def decimalAcc : ℕ → List Char → ℕ
  | acc, [] => acc
  | acc, c :: rest => decimalAcc (acc * 10 + digitVal c) rest

lemma toDigitsCore_eval (fuel : ℕ) :
    ∀ (n : ℕ), n < fuel → ∀ ds : List Char,
      decimalAcc 0 (Nat.toDigitsCore 10 fuel n ds) = decimalAcc n ds := by
  induction fuel with
  | zero => intro n hn; omega
  | succ fuel ih =>
    intro n hn ds
    simp only [Nat.toDigitsCore]
    by_cases h : n / 10 = 0
    · have hn10 : n < 10 := by omega
      rw [if_pos h]
      show decimalAcc (0 * 10 + digitVal (Nat.digitChar (n % 10))) ds = decimalAcc n ds
      rw [digitVal_digitChar (n % 10) (by omega)]
      have : 0 * 10 + n % 10 = n := by omega
      rw [this]
    · have hfuel : n / 10 < fuel := by omega
      rw [if_neg h]
      rw [ih (n / 10) hfuel (Nat.digitChar (n % 10) :: ds)]
      show decimalAcc (n / 10 * 10 + digitVal (Nat.digitChar (n % 10))) ds = decimalAcc n ds
      rw [digitVal_digitChar (n % 10) (by omega)]
      have : n / 10 * 10 + n % 10 = n := by omega
      rw [this]

lemma toDigitsCore_ne_nil (fuel : ℕ) :
    ∀ (n : ℕ) (ds : List Char), ds ≠ [] → Nat.toDigitsCore 10 fuel n ds ≠ [] := by
  induction fuel with
  | zero => intro n ds h; exact h
  | succ fuel ih =>
    intro n ds h
    simp only [Nat.toDigitsCore]
    by_cases h0 : n / 10 = 0
    · rw [if_pos h0]; exact List.cons_ne_nil _ _
    · rw [if_neg h0]; exact ih (n / 10) _ (List.cons_ne_nil _ _)

lemma natRepr_data (n : ℕ) : (Nat.repr n).data = Nat.toDigits 10 n := rfl

lemma natRepr_chars (n : ℕ) :
    ∀ c ∈ (Nat.repr n).data, ∃ m, m < 10 ∧ c = Nat.digitChar m := by
  intro c hc
  rw [natRepr_data] at hc
  rcases toDigitsCore_chars (n + 1) n [] c hc with h | h
  · cases h
  · exact h

lemma natRepr_no_pipe (n : ℕ) : '|' ∉ (Nat.repr n).data := by
  intro hmem
  rcases natRepr_chars n _ hmem with ⟨m, hm, hc⟩
  exact digitChar_ne_pipe m hm hc.symm

lemma natRepr_no_dash (n : ℕ) : '-' ∉ (Nat.repr n).data := by
  intro hmem
  rcases natRepr_chars n _ hmem with ⟨m, hm, hc⟩
  exact digitChar_ne_dash m hm hc.symm

lemma natRepr_ne_nil (n : ℕ) : (Nat.repr n).data ≠ [] := by
  rw [natRepr_data]
  unfold Nat.toDigits
  simp only [Nat.toDigitsCore]
  by_cases h0 : n / 10 = 0
  · rw [if_pos h0]; exact List.cons_ne_nil _ _
  · rw [if_neg h0]; exact toDigitsCore_ne_nil n (n / 10) _ (List.cons_ne_nil _ _)

lemma natRepr_inj {m n : ℕ} (h : Nat.repr m = Nat.repr n) : m = n := by
  have hd : Nat.toDigits 10 m = Nat.toDigits 10 n := by
    have := congrArg String.data h
    rwa [natRepr_data, natRepr_data] at this
  have em := toDigitsCore_eval (m + 1) m (Nat.lt_succ_self m) []
  have en := toDigitsCore_eval (n + 1) n (Nat.lt_succ_self n) []
  unfold Nat.toDigits at hd
  rw [hd] at em
  rw [em] at en
  exact en

lemma intRepr_negSucc_data (m : ℕ) :
    (Int.repr (Int.negSucc m)).data = '-' :: (Nat.repr (m + 1)).data := rfl

lemma intRepr_no_pipe (i : ℤ) : '|' ∉ (Int.repr i).data := by
  cases i with
  | ofNat m => exact natRepr_no_pipe m
  | negSucc m =>
    rw [intRepr_negSucc_data]
    intro hmem
    rcases List.mem_cons.mp hmem with h | h
    · exact absurd h.symm (by decide)
    · exact natRepr_no_pipe (m + 1) h

lemma intRepr_inj {i j : ℤ} (h : Int.repr i = Int.repr j) : i = j := by
  have hd := congrArg String.data h
  cases i with
  | ofNat m =>
    cases j with
    | ofNat n =>
      have : m = n := natRepr_inj (String.ext hd)
      rw [this]
    | negSucc n =>
      exfalso
      rw [show (Int.repr (Int.ofNat m)).data = (Nat.repr m).data from rfl,
        intRepr_negSucc_data] at hd
      exact natRepr_no_dash m (hd ▸ List.mem_cons_self '-' _)
  | negSucc m =>
    cases j with
    | ofNat n =>
      exfalso
      rw [show (Int.repr (Int.ofNat n)).data = (Nat.repr n).data from rfl,
        intRepr_negSucc_data] at hd
      exact natRepr_no_dash n (hd ▸ List.mem_cons_self '-' _)
    | negSucc n =>
      rw [intRepr_negSucc_data, intRepr_negSucc_data] at hd
      have htl : (Nat.repr (m + 1)).data = (Nat.repr (n + 1)).data :=
        List.cons_injective.eq_iff.mp hd
      have hs : m + 1 = n + 1 := natRepr_inj (String.ext htl)
      have hmn : m = n := by omega
      rw [hmn]

/-- Unique splitting of a list at a separator that occurs in neither prefix. -/
lemma append_splitter {α : Type} (c : α) :
    ∀ (a1 b1 a2 b2 : List α), c ∉ a1 → c ∉ a2 →
      a1 ++ c :: b1 = a2 ++ c :: b2 → a1 = a2 ∧ b1 = b2 := by
  intro a1
  induction a1 with
  | nil =>
    intro b1 a2 b2 _ h2 heq
    cases a2 with
    | nil => simpa using heq
    | cons x t2 =>
      exfalso
      have hx : c = x := (List.cons.injEq _ _ _ _ ▸ heq).1
      exact h2 (hx ▸ List.mem_cons_self x t2)
  | cons x t ih =>
    intro b1 a2 b2 h1 h2 heq
    cases a2 with
    | nil =>
      exfalso
      have hx : x = c := (List.cons.injEq _ _ _ _ ▸ heq).1
      exact h1 (hx ▸ List.mem_cons_self x t)
    | cons y t2 =>
      have hxy : x = y := (List.cons.injEq _ _ _ _ ▸ heq).1
      have htl : t ++ c :: b1 = t2 ++ c :: b2 := (List.cons.injEq _ _ _ _ ▸ heq).2
      have h1' : c ∉ t := fun hc => h1 (List.mem_cons_of_mem x hc)
      have h2' : c ∉ t2 := fun hc => h2 (List.mem_cons_of_mem y hc)
      obtain ⟨hta, htb⟩ := ih b1 t2 b2 h1' h2' htl
      exact ⟨by rw [hxy, hta], htb⟩

namespace ratelimit

/-- `type Config struct` from ratelimit.go (the `X-Rate-Limit` directive);
`resourceKind` inlines the single field of the nested `Resource` struct. -/
structure Config where
  method : String
  rate : ℤ
  period : ℤ
  ttl : ℤ
  resourceKind : String
  deriving Repr, DecidableEq

/-- `func (c *Config) GetTTL() time.Duration`, in seconds. -/
def Config.GetTTL (c : Config) : ℚ :=
  if c.ttl ≤ 0 then DefaultTTL else (c.ttl : ℚ)

/-- `Limiter` interface: the two concrete implementations. -/
inductive Limiter where
  | tokenBucket (tb : TokenBucket)
  | fixedWindow (fw : FixedWindow)
  deriving Repr, DecidableEq

/-- Dynamic dispatch of `Limiter.Allow()`. -/
def Limiter.Allow : Limiter → ℚ → Bool × Limiter
  | .tokenBucket tb, now => ((tb.Allow now).1, .tokenBucket (tb.Allow now).2)
  | .fixedWindow fw, now => ((fw.Allow now).1, .fixedWindow (fw.Allow now).2)

/-- `type limiterEntry struct` from ratelimit.go.  `limiterId` is a model
artifact: a fresh number per allocated limiter, standing for the pointer
identity of the Go limiter instance. -/
structure LimiterEntry where
  limiterId : ℕ
  limiter : Limiter
  lastUsed : ℚ
  ttl : ℚ
  deriving Repr, DecidableEq

/-- `type Store struct`; the map becomes an association list and `nextId`
feeds fresh identities to newly created limiters. -/
structure Store where
  limiters : List (String × LimiterEntry)
  nextId : ℕ
  deriving Repr, DecidableEq

/-- `NewStore()` (the cleanup goroutine is modelled by explicit
`Store.cleanup` calls). -/
def NewStore : Store := { limiters := [], nextId := 0 }

/-- In-place update `entry.lastUsed = now` through the map. -/
def refreshEntry : List (String × LimiterEntry) → String → ℚ → List (String × LimiterEntry)
  | [], _, _ => []
  | (k, en) :: rest, key, now =>
    if k = key then (k, { en with lastUsed := now }) :: rest
    else (k, en) :: refreshEntry rest key now

/-- In-place replacement of a stored limiter's state (models mutation of the
shared limiter through the returned pointer when `Allow()` runs). -/
def setLimiterEntry : List (String × LimiterEntry) → String → Limiter → List (String × LimiterEntry)
  | [], _, _ => []
  | (k, en) :: rest, key, l =>
    if k = key then (k, { en with limiter := l }) :: rest
    else (k, en) :: setLimiterEntry rest key l

/-- Store with one limiter's state replaced. -/
def Store.setLimiter (s : Store) (key : String) (l : Limiter) : Store :=
  { s with limiters := setLimiterEntry s.limiters key l }

/-- `func buildKey(egressIP, resourceKey string, cfg *Config) string`:
`fmt.Sprintf("%s|%s|%s|%d|%d", egressIP, resourceKey, cfg.Method, cfg.Rate,
cfg.Period)`. -/
def buildKey (egressIP resourceKey : String) (cfg : Config) : String :=
  egressIP ++ "|" ++ resourceKey ++ "|" ++ cfg.method ++ "|" ++
    Int.repr cfg.rate ++ "|" ++ Int.repr cfg.period

/-- The `switch cfg.Method` limiter construction in `GetOrCreate`
(unknown methods default to a token bucket). -/
def newLimiter (cfg : Config) (now : ℚ) : Limiter :=
  if cfg.method = MethodTokenBucket then
    .tokenBucket (NewTokenBucket cfg.rate cfg.period now)
  else if cfg.method = MethodFixedWindow then
    .fixedWindow (NewFixedWindow cfg.rate cfg.period now)
  else
    .tokenBucket (NewTokenBucket cfg.rate cfg.period now)

/-- `func (s *Store) GetOrCreate(...) Limiter` from ratelimit.go.  Under the
sequential semantics of the embedding the double-checked locking collapses
into a single lookup.  The returned pair carries the model identity of the
limiter next to its state. -/
def Store.GetOrCreate (s : Store) (egressIP resourceKey : String) (cfg : Config) (now : ℚ) :
    (ℕ × Limiter) × Store :=
  match alookup s.limiters (buildKey egressIP resourceKey cfg) with
  | some entry =>
    ((entry.limiterId, entry.limiter),
      { s with limiters := refreshEntry s.limiters (buildKey egressIP resourceKey cfg) now })
  | none =>
    ((s.nextId, newLimiter cfg now),
      { limiters := (buildKey egressIP resourceKey cfg,
          { limiterId := s.nextId, limiter := newLimiter cfg now,
            lastUsed := now, ttl := cfg.GetTTL }) :: s.limiters,
        nextId := s.nextId + 1 })

/-- `func (s *Store) cleanup()`: delete every entry with
`now - entry.lastUsed > entry.ttl`. -/
def Store.cleanup (s : Store) (now : ℚ) : Store :=
  { s with limiters := s.limiters.filter (fun kv => !decide (now - kv.2.lastUsed > kv.2.ttl)) }

/-- `func ExtractResourceKey(host, path string, kind ResourceKind) string`. -/
def ExtractResourceKey (host path kind : String) : String :=
  if kind = ResourceKindDomainPath then host ++ path
  else if kind = ResourceKindDomain then host
  else host

/-- The Go map never holds two entries with the same key. -/
def keysNodup (s : Store) : Prop := (s.limiters.map Prod.fst).Nodup

end ratelimit

namespace ratelimit

lemma buildKey_inj (e s : String) (c1 c2 : Config) (h : buildKey e s c1 = buildKey e s c2) :
    c1.method = c2.method ∧ c1.rate = c2.rate ∧ c1.period = c2.period := by
  have hpipe : ("|" : String).data = ['|'] := rfl
  have hd := congrArg String.data h
  simp only [buildKey, String.data_append, hpipe, List.append_assoc,
    List.singleton_append] at hd
  have hd1 := List.append_cancel_left hd
  have hd2 : s.data ++ '|' :: (c1.method.data ++ '|' ::
      ((Int.repr c1.rate).data ++ '|' :: (Int.repr c1.period).data)) =
      s.data ++ '|' :: (c2.method.data ++ '|' ::
      ((Int.repr c2.rate).data ++ '|' :: (Int.repr c2.period).data)) := by
    exact (List.cons.injEq _ _ _ _ ▸ hd1).2
  have hd3 : c1.method.data ++ '|' ::
      ((Int.repr c1.rate).data ++ '|' :: (Int.repr c1.period).data) =
      c2.method.data ++ '|' ::
      ((Int.repr c2.rate).data ++ '|' :: (Int.repr c2.period).data) :=
    (List.cons.injEq _ _ _ _ ▸ List.append_cancel_left hd2).2
  have hrev := congrArg List.reverse hd3
  simp only [List.reverse_append, List.reverse_cons, List.append_assoc,
    List.singleton_append] at hrev
  have hp1 : '|' ∉ (Int.repr c1.period).data.reverse := by
    rw [List.mem_reverse]; exact intRepr_no_pipe c1.period
  have hp2 : '|' ∉ (Int.repr c2.period).data.reverse := by
    rw [List.mem_reverse]; exact intRepr_no_pipe c2.period
  obtain ⟨hper, hrest⟩ := append_splitter '|' _ _ _ _ hp1 hp2 hrev
  have hr1 : '|' ∉ (Int.repr c1.rate).data.reverse := by
    rw [List.mem_reverse]; exact intRepr_no_pipe c1.rate
  have hr2 : '|' ∉ (Int.repr c2.rate).data.reverse := by
    rw [List.mem_reverse]; exact intRepr_no_pipe c2.rate
  obtain ⟨hrate, hmeth⟩ := append_splitter '|' _ _ _ _ hr1 hr2 hrest
  refine ⟨?_, ?_, ?_⟩
  · exact String.ext (List.reverse_injective hmeth)
  · exact intRepr_inj (String.ext (List.reverse_injective hrate))
  · exact intRepr_inj (String.ext (List.reverse_injective hper))

lemma GetOrCreate_hit (s : Store) (e r : String) (cfg : Config) (now : ℚ) (en : LimiterEntry)
    (h : alookup s.limiters (buildKey e r cfg) = some en) :
    s.GetOrCreate e r cfg now =
      ((en.limiterId, en.limiter),
        { s with limiters := refreshEntry s.limiters (buildKey e r cfg) now }) := by
  simp only [Store.GetOrCreate, h]

lemma GetOrCreate_miss (s : Store) (e r : String) (cfg : Config) (now : ℚ)
    (h : alookup s.limiters (buildKey e r cfg) = none) :
    s.GetOrCreate e r cfg now =
      ((s.nextId, newLimiter cfg now),
        { limiters := (buildKey e r cfg,
            { limiterId := s.nextId, limiter := newLimiter cfg now,
              lastUsed := now, ttl := cfg.GetTTL }) :: s.limiters,
          nextId := s.nextId + 1 }) := by
  simp only [Store.GetOrCreate, h]

lemma alookup_refresh_self (l : List (String × LimiterEntry)) (key : String) (now : ℚ) :
    alookup (refreshEntry l key now) key =
      (alookup l key).map (fun en => { en with lastUsed := now }) := by
  induction l with
  | nil => rfl
  | cons kv rest ih =>
    obtain ⟨k, en⟩ := kv
    by_cases hk : k = key
    · subst hk
      simp [refreshEntry, alookup]
    · simp [refreshEntry, alookup, hk, ih]

lemma alookup_refresh_other (l : List (String × LimiterEntry)) (key : String) (now : ℚ)
    (k' : String) (h : k' ≠ key) :
    alookup (refreshEntry l key now) k' = alookup l k' := by
  induction l with
  | nil => rfl
  | cons kv rest ih =>
    obtain ⟨k, en⟩ := kv
    by_cases hk : k = key
    · subst hk
      have hne : k ≠ k' := fun hc => h hc.symm
      simp [refreshEntry, alookup, hne]
    · by_cases hk' : k = k'
      · subst hk'
        simp [refreshEntry, alookup, hk]
      · simp [refreshEntry, alookup, hk, hk', ih]

lemma refresh_keys (l : List (String × LimiterEntry)) (key : String) (now : ℚ) :
    (refreshEntry l key now).map Prod.fst = l.map Prod.fst := by
  induction l with
  | nil => rfl
  | cons kv rest ih =>
    obtain ⟨k, en⟩ := kv
    by_cases hk : k = key
    · subst hk; simp [refreshEntry]
    · simp [refreshEntry, hk, ih]

lemma alookup_none_iff {β : Type} (l : List (String × β)) (k : String) :
    alookup l k = none ↔ k ∉ l.map Prod.fst := by
  induction l with
  | nil => simp [alookup]
  | cons kv rest ih =>
    obtain ⟨k0, v0⟩ := kv
    by_cases hk : k0 = k
    · subst hk
      simp [alookup]
    · simp only [alookup, if_neg hk, List.map_cons, List.mem_cons, ih]
      constructor
      · intro hmem hc
        rcases hc with hc | hc
        · exact hk hc.symm
        · exact hmem hc
      · intro hmem hc
        exact hmem (Or.inr hc)

lemma alookup_not_mem {β : Type} (l : List (String × β)) (k : String)
    (h : k ∉ l.map Prod.fst) : alookup l k = none :=
  (alookup_none_iff l k).mpr h

lemma alookup_filter_some (l : List (String × LimiterEntry))
    (hnd : (l.map Prod.fst).Nodup) (p : String × LimiterEntry → Bool) (k : String)
    (v : LimiterEntry) (h : alookup l k = some v) :
    alookup (l.filter p) k = if p (k, v) then some v else none := by
  induction l with
  | nil => cases h
  | cons kv rest ih =>
    obtain ⟨k0, v0⟩ := kv
    simp only [List.map_cons, List.nodup_cons] at hnd
    obtain ⟨hk0, hnd'⟩ := hnd
    by_cases hk : k0 = k
    · subst hk
      simp only [alookup, if_pos rfl] at h
      injection h with hv
      subst hv
      by_cases hp : p (k0, v0)
      · rw [List.filter_cons_of_pos hp]
        simp [alookup, hp]
      · rw [List.filter_cons_of_neg hp]
        have hkm : k0 ∉ (rest.filter p).map Prod.fst := by
          intro hc
          exact hk0 (List.map_subset Prod.fst (List.filter_sublist rest).subset hc)
        rw [alookup_not_mem _ _ hkm]
        simp [hp]
    · simp only [alookup, if_neg hk] at h
      by_cases hp : p (k0, v0)
      · rw [List.filter_cons_of_pos hp]
        simp only [alookup, if_neg hk]
        exact ih hnd' h
      · rw [List.filter_cons_of_neg hp]
        exact ih hnd' h

lemma GetOrCreate_keysNodup (s : Store) (e r : String) (cfg : Config) (now : ℚ)
    (h : keysNodup s) : keysNodup (s.GetOrCreate e r cfg now).2 := by
  cases hl : alookup s.limiters (buildKey e r cfg) with
  | some en =>
    rw [GetOrCreate_hit s e r cfg now en hl]
    unfold keysNodup
    rw [refresh_keys]
    exact h
  | none =>
    rw [GetOrCreate_miss s e r cfg now hl]
    unfold keysNodup
    simp only [List.map_cons, List.nodup_cons]
    exact ⟨(alookup_none_iff s.limiters _).mp hl, h⟩

end ratelimit

namespace ratelimit

lemma getOrCreate_twice_same (e s : String) (c1 c2 : Config)
    (hm : c1.method = c2.method) (hr : c1.rate = c2.rate) (hp : c1.period = c2.period) :
    ((NewStore.GetOrCreate e s c1 0).2.GetOrCreate e s c2 0).1.1 =
      (NewStore.GetOrCreate e s c1 0).1.1 := by
  have hkeq : buildKey e s c2 = buildKey e s c1 := by
    unfold buildKey
    rw [hm, hr, hp]
  have h1 : alookup NewStore.limiters (buildKey e s c1) = none := rfl
  rw [GetOrCreate_miss NewStore e s c1 0 h1]
  have h2 : alookup ((buildKey e s c1,
      ({ limiterId := NewStore.nextId, limiter := newLimiter c1 0, lastUsed := 0,
         ttl := c1.GetTTL } : LimiterEntry)) :: NewStore.limiters) (buildKey e s c2) =
      some { limiterId := NewStore.nextId, limiter := newLimiter c1 0, lastUsed := 0,
             ttl := c1.GetTTL } := by
    simp only [alookup]
    rw [if_pos hkeq.symm]
  rw [GetOrCreate_hit _ e s c2 0 _ h2]

lemma getOrCreate_twice_diff (e s : String) (c1 c2 : Config)
    (hne : ¬ (c1.method = c2.method ∧ c1.rate = c2.rate ∧ c1.period = c2.period)) :
    ((NewStore.GetOrCreate e s c1 0).2.GetOrCreate e s c2 0).1.1 ≠
      (NewStore.GetOrCreate e s c1 0).1.1 := by
  have hkne : buildKey e s c1 ≠ buildKey e s c2 := by
    intro hc
    obtain ⟨hm, hr, hp⟩ := buildKey_inj e s c1 c2 hc
    exact hne ⟨hm, hr, hp⟩
  have h1 : alookup NewStore.limiters (buildKey e s c1) = none := rfl
  rw [GetOrCreate_miss NewStore e s c1 0 h1]
  have h2 : alookup ((buildKey e s c1,
      ({ limiterId := NewStore.nextId, limiter := newLimiter c1 0, lastUsed := 0,
         ttl := c1.GetTTL } : LimiterEntry)) :: NewStore.limiters) (buildKey e s c2) = none := by
    simp only [alookup]
    rw [if_neg hkne]
  rw [GetOrCreate_miss _ e s c2 0 h2]
  simp [NewStore]

end ratelimit

open ratelimit in
/-- C3 (corrected): starting from a fresh store, two `GetOrCreate` calls with
the same egress address and resource key return the same limiter instance iff
the directive's method, rate, and period agree — `ttl` and resource kind are
not part of the limiter key, so they may differ; a directive differing in
method, rate, or period yields a distinct instance; and an unrecognized
method falls back to a token bucket. -/
theorem c3_get_or_create_amended (e s : String) (c1 c2 : Config) :
    ((c1.method = c2.method ∧ c1.rate = c2.rate ∧ c1.period = c2.period) →
      ((NewStore.GetOrCreate e s c1 0).2.GetOrCreate e s c2 0).1.1 =
        (NewStore.GetOrCreate e s c1 0).1.1) ∧
      (¬ (c1.method = c2.method ∧ c1.rate = c2.rate ∧ c1.period = c2.period) →
        ((NewStore.GetOrCreate e s c1 0).2.GetOrCreate e s c2 0).1.1 ≠
          (NewStore.GetOrCreate e s c1 0).1.1) ∧
      (∀ (cfg : Config) (now : ℚ), cfg.method ≠ MethodTokenBucket →
        cfg.method ≠ MethodFixedWindow →
        ∃ tb : TokenBucket, newLimiter cfg now = Limiter.tokenBucket tb) := by
  refine ⟨?_, ?_, ?_⟩
  · rintro ⟨hm, hr, hp⟩
    exact getOrCreate_twice_same e s c1 c2 hm hr hp
  · intro hne
    exact getOrCreate_twice_diff e s c1 c2 hne
  · intro cfg now hm1 hm2
    refine ⟨NewTokenBucket cfg.rate cfg.period now, ?_⟩
    unfold newLimiter
    rw [if_neg hm1, if_neg hm2]

open ratelimit in
/-- Counterexample to C3 as stated: the two directives below differ in a
component (`ttl`: 60 vs 120) yet `GetOrCreate` returns the same limiter
instance for both, because `buildKey` omits `ttl`. -/
theorem c3_get_or_create_counterexample :
    (Config.mk "token_bucket" 1 60 60 "domain") ≠
        (Config.mk "token_bucket" 1 60 120 "domain") ∧
      ((NewStore.GetOrCreate "10.0.0.1" "example.com"
            (Config.mk "token_bucket" 1 60 60 "domain") 0).2.GetOrCreate
          "10.0.0.1" "example.com" (Config.mk "token_bucket" 1 60 120 "domain") 0).1.1 =
        (NewStore.GetOrCreate "10.0.0.1" "example.com"
            (Config.mk "token_bucket" 1 60 60 "domain") 0).1.1 := by
  constructor
  · intro hc
    cases hc
  · exact getOrCreate_twice_same _ _ _ _ rfl rfl rfl

open ratelimit in
/-- Witness for C3's amended statement: equal (method, rate, period) yield
the same instance even with different `ttl`; changing the rate yields a
distinct instance; an unknown method yields a token bucket. -/
theorem c3_get_or_create_amended_witness :
    ((NewStore.GetOrCreate "e" "r" (Config.mk "fixed_window" 2 5 9 "domain") 0).2.GetOrCreate
        "e" "r" (Config.mk "fixed_window" 2 5 99 "domain") 0).1.1 =
      (NewStore.GetOrCreate "e" "r" (Config.mk "fixed_window" 2 5 9 "domain") 0).1.1 ∧
    ((NewStore.GetOrCreate "e" "r" (Config.mk "fixed_window" 2 5 9 "domain") 0).2.GetOrCreate
        "e" "r" (Config.mk "fixed_window" 3 5 9 "domain") 0).1.1 ≠
      (NewStore.GetOrCreate "e" "r" (Config.mk "fixed_window" 2 5 9 "domain") 0).1.1 ∧
    (∃ tb : TokenBucket, newLimiter (Config.mk "bogus" 1 1 1 "domain") 0 =
      Limiter.tokenBucket tb) :=
  ⟨(c3_get_or_create_amended "e" "r" (Config.mk "fixed_window" 2 5 9 "domain")
      (Config.mk "fixed_window" 2 5 99 "domain")).1 ⟨rfl, rfl, rfl⟩,
   (c3_get_or_create_amended "e" "r" (Config.mk "fixed_window" 2 5 9 "domain")
      (Config.mk "fixed_window" 3 5 9 "domain")).2.1 (by intro hc; exact absurd hc.2.1 (by decide)),
   (c3_get_or_create_amended "e" "r" (Config.mk "fixed_window" 2 5 9 "domain")
      (Config.mk "fixed_window" 2 5 9 "domain")).2.2 (Config.mk "bogus" 1 1 1 "domain") 0
      (by decide) (by decide)⟩

open ratelimit in
/-- C4: a sweep removes an entry exactly when `now − lastUsed > ttl`; every
`GetOrCreate` of an entry's key sets its `lastUsed` to the current time, so
an entry re-accessed at `t1` survives a later sweep at `t2` whenever
`t2 − t1 ≤ ttl` (sliding TTL); a created entry's `ttl` is the directive's
`ttl` in seconds, defaulting to 300 when `ttl ≤ 0`. -/
theorem c4_sliding_ttl_sweep :
    (∀ (st : Store) (now : ℚ) (kv : String × LimiterEntry),
      kv ∈ (st.cleanup now).limiters ↔
        kv ∈ st.limiters ∧ ¬ (now - kv.2.lastUsed > kv.2.ttl)) ∧
      (∀ (st : Store) (e r : String) (cfg : Config) (t1 t2 : ℚ), keysNodup st →
        ∃ entry : LimiterEntry,
          alookup (st.GetOrCreate e r cfg t1).2.limiters (buildKey e r cfg) = some entry ∧
            entry.lastUsed = t1 ∧
            (t2 - t1 ≤ entry.ttl →
              alookup ((st.GetOrCreate e r cfg t1).2.cleanup t2).limiters
                  (buildKey e r cfg) = some entry)) ∧
      (∀ (st : Store) (e r : String) (cfg : Config) (now : ℚ),
        alookup st.limiters (buildKey e r cfg) = none →
        ∃ entry : LimiterEntry,
          alookup (st.GetOrCreate e r cfg now).2.limiters (buildKey e r cfg) = some entry ∧
            entry.ttl = cfg.GetTTL) ∧
      (∀ cfg : Config,
        (cfg.ttl ≤ 0 → cfg.GetTTL = 300) ∧ (0 < cfg.ttl → cfg.GetTTL = (cfg.ttl : ℚ))) := by
  refine ⟨?_, ?_, ?_, ?_⟩
  · intro st now kv
    simp [Store.cleanup, List.mem_filter]
  · intro st e r cfg t1 t2 hnd
    cases hl : alookup st.limiters (buildKey e r cfg) with
    | some en =>
      rw [GetOrCreate_hit st e r cfg t1 en hl]
      refine ⟨{ en with lastUsed := t1 }, ?_, rfl, ?_⟩
      · dsimp only
        rw [alookup_refresh_self, hl]
        rfl
      · intro hsur
        have hcond : ¬ (t2 - t1 > en.ttl) := not_lt.mpr hsur
        dsimp only [Store.cleanup]
        have hnd' : ((refreshEntry st.limiters (buildKey e r cfg) t1).map Prod.fst).Nodup := by
          rw [refresh_keys]; exact hnd
        have hsome : alookup (refreshEntry st.limiters (buildKey e r cfg) t1)
            (buildKey e r cfg) = some { en with lastUsed := t1 } := by
          rw [alookup_refresh_self, hl]
          rfl
        rw [alookup_filter_some _ hnd' _ _ _ hsome]
        simp [hcond]
    | none =>
      rw [GetOrCreate_miss st e r cfg t1 hl]
      refine ⟨{ limiterId := st.nextId, limiter := newLimiter cfg t1,
                lastUsed := t1, ttl := cfg.GetTTL }, ?_, rfl, ?_⟩
      · dsimp only
        simp [alookup]
      · intro hsur
        have hcond : ¬ (t2 - t1 > cfg.GetTTL) := not_lt.mpr hsur
        dsimp only [Store.cleanup]
        rw [List.filter_cons_of_pos (by simp [hcond])]
        simp [alookup]
  · intro st e r cfg now hl
    rw [GetOrCreate_miss st e r cfg now hl]
    refine ⟨{ limiterId := st.nextId, limiter := newLimiter cfg now,
              lastUsed := now, ttl := cfg.GetTTL }, ?_, rfl⟩
    dsimp only
    simp [alookup]
  · intro cfg
    constructor
    · intro h
      unfold Config.GetTTL
      rw [if_pos h]
      rfl
    · intro h
      unfold Config.GetTTL
      rw [if_neg (not_le.mpr h)]

open ratelimit in
/-- Witness for C4: a fresh entry created at time 0 with default TTL (300)
survives a sweep at time 100. -/
theorem c4_sliding_ttl_sweep_witness :
    ∃ entry : LimiterEntry,
      alookup (NewStore.GetOrCreate "ip" "res"
          (Config.mk "token_bucket" 1 1 0 "domain") 0).2.limiters
          (buildKey "ip" "res" (Config.mk "token_bucket" 1 1 0 "domain")) = some entry ∧
        entry.lastUsed = 0 ∧
        ((100 : ℚ) - 0 ≤ entry.ttl →
          alookup ((NewStore.GetOrCreate "ip" "res"
              (Config.mk "token_bucket" 1 1 0 "domain") 0).2.cleanup 100).limiters
              (buildKey "ip" "res" (Config.mk "token_bucket" 1 1 0 "domain")) = some entry) :=
  c4_sliding_ttl_sweep.2.1 NewStore "ip" "res" (Config.mk "token_bucket" 1 1 0 "domain") 0 100
    (by simp [keysNodup, NewStore])

open ratelimit in
/-- C10: a `GetOrCreate` that hits an existing entry changes only that
entry's `lastUsed`: the returned limiter instance and the stored `ttl` are
untouched, `nextId` does not advance, unrelated keys are untouched — and
since `buildKey` ignores the directive's `ttl`, a directive differing only
in `ttl` maps to the same entry, which keeps its creation-time TTL. -/
theorem c10_hit_only_refreshes (st : Store) (e r : String) (cfg : Config) (now : ℚ)
    (entry : LimiterEntry) (h : alookup st.limiters (buildKey e r cfg) = some entry) :
    (st.GetOrCreate e r cfg now).1 = (entry.limiterId, entry.limiter) ∧
      alookup (st.GetOrCreate e r cfg now).2.limiters (buildKey e r cfg) =
        some { entry with lastUsed := now } ∧
      (st.GetOrCreate e r cfg now).2.nextId = st.nextId ∧
      (∀ k' : String, k' ≠ buildKey e r cfg →
        alookup (st.GetOrCreate e r cfg now).2.limiters k' = alookup st.limiters k') ∧
      (∀ t : ℤ, buildKey e r { cfg with ttl := t } = buildKey e r cfg ∧
        (st.GetOrCreate e r { cfg with ttl := t } now).1 =
          (entry.limiterId, entry.limiter)) := by
  rw [GetOrCreate_hit st e r cfg now entry h]
  refine ⟨rfl, ?_, rfl, ?_, ?_⟩
  · dsimp only
    rw [alookup_refresh_self, h]
    rfl
  · intro k' hk'
    dsimp only
    exact alookup_refresh_other st.limiters _ now k' hk'
  · intro t
    refine ⟨rfl, ?_⟩
    have h' : alookup st.limiters (buildKey e r { cfg with ttl := t }) = some entry := h
    rw [GetOrCreate_hit st e r { cfg with ttl := t } now entry h']

open ratelimit in
/-- Witness for C10 on a one-entry store: the hit returns the stored
instance (id 7) and leaves `nextId` at 8. -/
theorem c10_hit_only_refreshes_witness :
    ((Store.mk [(buildKey "e" "r" (Config.mk "token_bucket" 1 1 0 "domain"),
          LimiterEntry.mk 7 (Limiter.tokenBucket (NewTokenBucket 1 1 0)) 5 300)] 8).GetOrCreate
        "e" "r" (Config.mk "token_bucket" 1 1 0 "domain") 6).1 =
      (7, Limiter.tokenBucket (NewTokenBucket 1 1 0)) ∧
    ((Store.mk [(buildKey "e" "r" (Config.mk "token_bucket" 1 1 0 "domain"),
          LimiterEntry.mk 7 (Limiter.tokenBucket (NewTokenBucket 1 1 0)) 5 300)] 8).GetOrCreate
        "e" "r" (Config.mk "token_bucket" 1 1 0 "domain") 6).2.nextId = 8 := by
  have h : alookup (Store.mk [(buildKey "e" "r" (Config.mk "token_bucket" 1 1 0 "domain"),
      LimiterEntry.mk 7 (Limiter.tokenBucket (NewTokenBucket 1 1 0)) 5 300)] 8).limiters
      (buildKey "e" "r" (Config.mk "token_bucket" 1 1 0 "domain")) =
      some (LimiterEntry.mk 7 (Limiter.tokenBucket (NewTokenBucket 1 1 0)) 5 300) := by
    simp [alookup]
  exact ⟨(c10_hit_only_refreshes _ "e" "r" _ 6 _ h).1,
    (c10_hit_only_refreshes _ "e" "r" _ 6 _ h).2.2.1⟩

namespace config

/-- `type Config struct` from the config package: the allowed interface
names loaded from `config.yaml`. -/
structure Config where
  allowedInterfaces : List String
  deriving Repr, DecidableEq

/-- A network address attached to an interface, as `net.Interface.Addrs`
reports it: the Go code recognizes `*net.IPNet` and `*net.IPAddr` and skips
anything else. -/
inductive IFAddr (IP : Type) where
  | ipNet (ip : IP)
  | ipAddr (ip : IP)
  | other

/-- One host interface: its name, whether `net.FlagUp` is set, and its
addresses (`none` models an `Addrs()` error). -/
structure NetInterface (IP : Type) where
  name : String
  up : Bool
  addrs : Option (List (IFAddr IP))

/-- The `net` standard-library collaborator, abstracted: IP parsing and the
predicates `handleProxy`, `GetAvailableIPs`, and `IsIPAllowed` consult.
`interfaces = none` models a `net.Interfaces()` error. -/
structure Env (IP : Type) where
  parseIP : String → Option IP
  ipEqual : IP → IP → Bool
  isLinkLocalUnicast : IP → Bool
  isLinkLocalMulticast : IP → Bool
  isLoopback : IP → Bool
  to4IsSome : IP → Bool
  ipString : IP → String
  interfaces : Option (List (NetInterface IP))

/-- `type IPInfo struct` from the config package. -/
structure IPInfo where
  Interface : String
  IP : String
  Version : ℕ
  deriving Repr, DecidableEq

/-- The `switch v := addr.(type)` extraction of the IP from an address. -/
def addrIP {IP : Type} : IFAddr IP → Option IP
  | .ipNet ip => some ip
  | .ipAddr ip => some ip
  | .other => none

/-- `func (c *Config) GetAvailableIPs() ([]IPInfo, error)`: all
non-link-local, non-loopback IPs of the allowed, up interfaces. -/
def GetAvailableIPs {IP : Type} (c : Config) (env : Env IP) : Option (List IPInfo) :=
  match env.interfaces with
  | none => none
  | some ifaces =>
    some (ifaces.foldl (fun result ifc =>
      if ¬ (c.allowedInterfaces.contains ifc.name) then result
      else if ¬ ifc.up then result
      else
        match ifc.addrs with
        | none => result
        | some addrs =>
          result ++ addrs.filterMap (fun a =>
            match addrIP a with
            | none => none
            | some ip =>
              if env.isLinkLocalUnicast ip || env.isLinkLocalMulticast ip then none
              else if env.isLoopback ip then none
              else some { Interface := ifc.name, IP := env.ipString ip,
                          Version := if env.to4IsSome ip then 4 else 6 })) [])

/-- `func (c *Config) IsIPAllowed(ipStr string) bool`: parse the candidate
(unparseable means not allowed), then search the allowed interfaces for an
equal address.  Note it does not check whether an interface is up. -/
def IsIPAllowed {IP : Type} (c : Config) (env : Env IP) (ipStr : String) : Bool :=
  match env.parseIP ipStr with
  | none => false
  | some ip =>
    match env.interfaces with
    | none => false
    | some ifaces =>
      ifaces.any (fun ifc =>
        c.allowedInterfaces.contains ifc.name &&
          (match ifc.addrs with
           | none => false
           | some addrs =>
             addrs.any (fun a =>
               match addrIP a with
               | none => false
               | some i2 => env.ipEqual i2 ip)))

end config

namespace http_server

/-- The parts of an inbound proxy request `handleProxy` inspects.
`egressHeader` is `r.Header.Get("X-Egress-IP")` (`""` when absent);
`rateLimitHeader` models `r.Header.Get("X-Rate-Limit")` plus its JSON
decoding: `none` = header absent, `some none` = present but unmarshalling
fails, `some (some cfg)` = parses to `cfg`. -/
structure Request where
  egressHeader : String
  rateLimitHeader : Option (Option ratelimit.Config)
  host : String
  path : String
  isConnect : Bool
  deriving DecidableEq

/-- How `handleProxy` terminates, before any outbound network traffic. -/
inductive Outcome (IP : Type) where
  | serverNotConfigured
  | noAvailableIPs
  | serviceUnavailable
  | forbidden
  | invalidEgressIP
  | invalidRateLimit
  | tooManyRequests
  | proceed (isConnect : Bool) (localIP : IP)
  deriving DecidableEq

/-- The HTTP status each outcome is written with (`proceed` dispatches to
the tunnel/forwarder instead of writing an error).  `serviceUnavailable`
(503) exists only so the spec's claim about it can be stated; the code
never produces it. -/
def statusCode {IP : Type} : Outcome IP → ℕ
  | .serverNotConfigured => 500
  | .noAvailableIPs => 500
  | .serviceUnavailable => 503
  | .forbidden => 403
  | .invalidEgressIP => 400
  | .invalidRateLimit => 400
  | .tooManyRequests => 429
  | .proceed _ _ => 200

/-- `ips[rand.Intn(len(ips))]`: the element picked for random draw `r`
(callers guarantee `r < len(ips)`, as `rand.Intn` does). -/
def selectIP (ips : List config.IPInfo) (r : ℕ) : config.IPInfo :=
  ips.getD r (config.IPInfo.mk "" "" 0)

/-- The egress-selection prefix of `handleProxy`: either the validated
`X-Egress-IP` header value or a randomly chosen available IP. -/
def chooseEgressIP {IP : Type} (cfgOpt : Option config.Config) (env : config.Env IP)
    (req : Request) (rng : ℕ) : Except (Outcome IP) String :=
  if req.egressHeader = "" then
    match cfgOpt with
    | none => .error .serverNotConfigured
    | some cfg =>
      match config.GetAvailableIPs cfg env with
      | none => .error .noAvailableIPs
      | some ips =>
        if ips.length = 0 then .error .noAvailableIPs
        else .ok (selectIP ips rng).IP
  else
    match cfgOpt with
    | some cfg =>
      if ¬ config.IsIPAllowed cfg env req.egressHeader then .error .forbidden
      else .ok req.egressHeader
    | none => .ok req.egressHeader

/-- The rate-limiting tail of `handleProxy`: decode the directive, key the
limiter by (egress IP, resource key), ask it, and either fail with 429 or
dispatch to the CONNECT/plain handler. -/
def rateLimitAndDispatch {IP : Type} (req : Request) (egressIP : String) (localIP : IP)
    (st : ratelimit.Store) (now : ℚ) : Outcome IP × ratelimit.Store :=
  match req.rateLimitHeader with
  | none => (.proceed req.isConnect localIP, st)
  | some none => (.invalidRateLimit, st)
  | some (some rl) =>
    let path := if req.isConnect then "" else req.path
    let resourceKey := ratelimit.ExtractResourceKey req.host path rl.resourceKind
    let res := st.GetOrCreate egressIP resourceKey rl now
    let allowRes := res.1.2.Allow now
    let st2 := res.2.setLimiter (ratelimit.buildKey egressIP resourceKey rl) allowRes.2
    if allowRes.1 then (.proceed req.isConnect localIP, st2)
    else (.tooManyRequests, st2)

/-- `func (hs *HTTPServer) handleProxy(...)` from main.go, up to the point
where it hands off to `handleConnect`/`handleHTTPProxy`. -/
def handleProxy {IP : Type} (cfgOpt : Option config.Config) (env : config.Env IP)
    (req : Request) (rng : ℕ) (st : ratelimit.Store) (now : ℚ) :
    Outcome IP × ratelimit.Store :=
  match chooseEgressIP cfgOpt env req rng with
  | .error o => (o, st)
  | .ok egressIP =>
    match env.parseIP egressIP with
    | none => (.invalidEgressIP, st)
    | some localIP => rateLimitAndDispatch req egressIP localIP st now

lemma rld_outcome_cases {IP : Type} (req : Request) (egressIP : String) (localIP : IP)
    (st : ratelimit.Store) (now : ℚ) :
    (rateLimitAndDispatch req egressIP localIP st now).1 = .proceed req.isConnect localIP ∨
      (rateLimitAndDispatch req egressIP localIP st now).1 = .invalidRateLimit ∨
      (rateLimitAndDispatch req egressIP localIP st now).1 = .tooManyRequests := by
  unfold rateLimitAndDispatch
  cases req.rateLimitHeader with
  | none => exact Or.inl rfl
  | some o =>
    cases o with
    | none => exact Or.inr (Or.inl rfl)
    | some rl =>
      dsimp only
      split
      all_goals split
      all_goals first
        | exact Or.inl rfl
        | exact Or.inr (Or.inr rfl)

lemma isIPAllowed_parse {IP : Type} (cfg : config.Config) (env : config.Env IP) (s : String)
    (h : config.IsIPAllowed cfg env s = true) : ∃ ip, env.parseIP s = some ip := by
  unfold config.IsIPAllowed at h
  cases hp : env.parseIP s with
  | none => rw [hp] at h; cases h
  | some ip => exact ⟨ip, rfl⟩

end http_server

namespace http_server

lemma get_count {α : Type} [DecidableEq α] (l : List α) (x : α) :
    (Finset.univ.filter (fun i : Fin l.length => l.get i = x)).card = l.count x := by
  induction l with
  | nil => simp
  | cons a t ih =>
    show (Finset.univ.filter (fun i : Fin (t.length + 1) => (a :: t).get i = x)).card =
      List.count x (a :: t)
    rw [Fin.card_filter_univ_succ' (fun i : Fin (t.length + 1) => (a :: t).get i = x)]
    simp only [List.get_cons_zero, List.get_cons_succ', List.count_cons, beq_iff_eq, ih]
    exact Nat.add_comm _ _

lemma selectIP_uniform (ips : List config.IPInfo) (x : config.IPInfo) :
    (Finset.univ.filter (fun i : Fin ips.length => selectIP ips i.val = x)).card =
      ips.count x := by
  have hfun : ∀ i : Fin ips.length, selectIP ips i.val = ips.get i := by
    intro i
    unfold selectIP
    rw [List.getD_eq_getElem _ _ i.isLt]
    simp [List.get_eq_getElem]
  rw [Finset.filter_congr (fun i _ => by rw [hfun i])]
  exact get_count ips x

end http_server

open http_server in
/-- C5 (corrected): with a loaded configuration the permitted-address check
runs before IP parsing and itself rejects every unparseable string, so any
candidate it rejects — unparseable ones included — fails with Forbidden
(403); a candidate it accepts is parseable and never yields 400 or 403; the
BadRequest (400) path for an unparseable candidate is reached only when no
configuration is loaded. -/
theorem c5_egress_validation_amended {IP : Type} (env : config.Env IP)
    (cfg : config.Config) (req : Request) (rng : ℕ) (st : ratelimit.Store) (now : ℚ)
    (hhdr : req.egressHeader ≠ "") :
    (config.IsIPAllowed cfg env req.egressHeader = false →
      (handleProxy (some cfg) env req rng st now).1 = Outcome.forbidden ∧
        statusCode (handleProxy (some cfg) env req rng st now).1 = 403) ∧
      (config.IsIPAllowed cfg env req.egressHeader = true →
        (handleProxy (some cfg) env req rng st now).1 ≠ Outcome.invalidEgressIP ∧
          (handleProxy (some cfg) env req rng st now).1 ≠ Outcome.forbidden) ∧
      (env.parseIP req.egressHeader = none →
        (handleProxy none env req rng st now).1 = Outcome.invalidEgressIP ∧
          statusCode (handleProxy none env req rng st now).1 = 400) := by
  refine ⟨?_, ?_, ?_⟩
  · intro hfalse
    have hcond : ¬ (config.IsIPAllowed cfg env req.egressHeader = true) := by
      rw [hfalse]; simp
    simp only [handleProxy, chooseEgressIP, if_neg hhdr, if_pos hcond]
    constructor <;> trivial
  · intro htrue
    have hcond : ¬ ¬ (config.IsIPAllowed cfg env req.egressHeader = true) := by
      rw [htrue]; simp
    obtain ⟨ip, hip⟩ := isIPAllowed_parse cfg env req.egressHeader htrue
    simp only [handleProxy, chooseEgressIP, if_neg hhdr, if_neg hcond, hip]
    rcases rld_outcome_cases req req.egressHeader ip st now with h | h | h <;>
      rw [h] <;> exact ⟨by simp, by simp⟩
  · intro hparse
    simp only [handleProxy, chooseEgressIP, if_neg hhdr, hparse]
    constructor <;> trivial

open http_server in
/-- Counterexample to C5 as stated: with a configuration loaded, the
unparseable candidate "not-an-ip" is rejected with Forbidden (403), not
BadRequest (400), because `IsIPAllowed` runs first and rejects it. -/
theorem c5_egress_validation_counterexample :
    (@http_server.handleProxy ℕ (some (config.Config.mk ["eth0"]))
          (config.Env.mk (fun _ => none) (fun a b => a == b) (fun _ => false)
            (fun _ => false) (fun _ => false) (fun _ => true) (fun _ => "") (some []))
          (Request.mk "not-an-ip" none "example.com" "/" false) 0 ratelimit.NewStore 0).1 =
        Outcome.forbidden ∧
      statusCode (@http_server.handleProxy ℕ (some (config.Config.mk ["eth0"]))
          (config.Env.mk (fun _ => none) (fun a b => a == b) (fun _ => false)
            (fun _ => false) (fun _ => false) (fun _ => true) (fun _ => "") (some []))
          (Request.mk "not-an-ip" none "example.com" "/" false) 0 ratelimit.NewStore 0).1 =
        403 ∧
      (403 : ℕ) ≠ 400 :=
  ⟨rfl, rfl, by decide⟩

open http_server in
/-- Witness for C5's amended statement on a concrete environment: a
rejected candidate gets 403, and with no configuration an unparseable
candidate gets 400. -/
theorem c5_egress_validation_amended_witness :
    (@http_server.handleProxy ℕ (some (config.Config.mk ["eth0"]))
          (config.Env.mk (fun _ => none) (fun a b => a == b) (fun _ => false)
            (fun _ => false) (fun _ => false) (fun _ => true) (fun _ => "") (some []))
          (Request.mk "not-an-ip" none "example.com" "/" false) 0 ratelimit.NewStore 0).1 =
        Outcome.forbidden ∧
      (@http_server.handleProxy ℕ none
          (config.Env.mk (fun _ => none) (fun a b => a == b) (fun _ => false)
            (fun _ => false) (fun _ => false) (fun _ => true) (fun _ => "") (some []))
          (Request.mk "not-an-ip" none "example.com" "/" false) 0 ratelimit.NewStore 0).1 =
        Outcome.invalidEgressIP :=
  ⟨((@c5_egress_validation_amended ℕ
        (config.Env.mk (fun _ => none) (fun a b => a == b) (fun _ => false)
          (fun _ => false) (fun _ => false) (fun _ => true) (fun _ => "") (some []))
        (config.Config.mk ["eth0"])
        (Request.mk "not-an-ip" none "example.com" "/" false) 0 ratelimit.NewStore 0
        (by decide)).1 rfl).1,
   ((@c5_egress_validation_amended ℕ
        (config.Env.mk (fun _ => none) (fun a b => a == b) (fun _ => false)
          (fun _ => false) (fun _ => false) (fun _ => true) (fun _ => "") (some []))
        (config.Config.mk ["eth0"])
        (Request.mk "not-an-ip" none "example.com" "/" false) 0 ratelimit.NewStore 0
        (by decide)).2.2 rfl).1⟩

open http_server in
/-- C6 (corrected): with no `X-Egress-IP` header, an unavailable or empty
permitted-address list fails with InternalServerError (500, body "no
available egress IPs") — not ServiceUnavailable — and otherwise the egress
is `ips[r]` for the uniform random draw `r`, which selects every list
position with equal probability (each element is drawn as often as it
occurs in the list). -/
theorem c6_random_egress_amended {IP : Type} (env : config.Env IP) (cfg : config.Config)
    (req : Request) (rng : ℕ) (st : ratelimit.Store) (now : ℚ)
    (hhdr : req.egressHeader = "") :
    (config.GetAvailableIPs cfg env = none →
      (handleProxy (some cfg) env req rng st now).1 = Outcome.noAvailableIPs ∧
        statusCode (handleProxy (some cfg) env req rng st now).1 = 500) ∧
      (config.GetAvailableIPs cfg env = some [] →
        (handleProxy (some cfg) env req rng st now).1 = Outcome.noAvailableIPs ∧
          statusCode (handleProxy (some cfg) env req rng st now).1 = 500) ∧
      (∀ ips : List config.IPInfo, config.GetAvailableIPs cfg env = some ips →
        ips.length ≠ 0 →
        chooseEgressIP (some cfg) env req rng = Except.ok (selectIP ips rng).IP) ∧
      (∀ (ips : List config.IPInfo) (x : config.IPInfo),
        (Finset.univ.filter (fun i : Fin ips.length => selectIP ips i.val = x)).card =
          ips.count x) := by
  refine ⟨?_, ?_, ?_, ?_⟩
  · intro hnone
    simp only [handleProxy, chooseEgressIP, if_pos hhdr, hnone]
    constructor <;> trivial
  · intro hempty
    simp only [handleProxy, chooseEgressIP, if_pos hhdr, hempty, List.length_nil]
    constructor <;> trivial
  · intro ips hips hlen
    simp only [chooseEgressIP, if_pos hhdr, hips, if_neg hlen]
  · exact selectIP_uniform

open http_server in
/-- Counterexample to C6 as stated: with an empty available-IP list the
code responds 500 (InternalServerError), not 503 (ServiceUnavailable). -/
theorem c6_random_egress_counterexample :
    (@http_server.handleProxy ℕ (some (config.Config.mk ["eth0"]))
          (config.Env.mk (fun _ => none) (fun a b => a == b) (fun _ => false)
            (fun _ => false) (fun _ => false) (fun _ => true) (fun _ => "") (some []))
          (Request.mk "" none "example.com" "/" false) 0 ratelimit.NewStore 0).1 =
        Outcome.noAvailableIPs ∧
      statusCode (@http_server.handleProxy ℕ (some (config.Config.mk ["eth0"]))
          (config.Env.mk (fun _ => none) (fun a b => a == b) (fun _ => false)
            (fun _ => false) (fun _ => false) (fun _ => true) (fun _ => "") (some []))
          (Request.mk "" none "example.com" "/" false) 0 ratelimit.NewStore 0).1 = 500 ∧
      (Outcome.noAvailableIPs : Outcome ℕ) ≠ Outcome.serviceUnavailable ∧
      (500 : ℕ) ≠ 503 :=
  ⟨rfl, rfl, by decide, by decide⟩

open http_server in
/-- Witness for C6's amended statement: a concrete empty list gives 500,
and for the two-element list the draw is position-uniform. -/
theorem c6_random_egress_amended_witness :
    ((@http_server.handleProxy ℕ (some (config.Config.mk ["eth0"]))
          (config.Env.mk (fun _ => none) (fun a b => a == b) (fun _ => false)
            (fun _ => false) (fun _ => false) (fun _ => true) (fun _ => "") (some []))
          (Request.mk "" none "example.com" "/" false) 0 ratelimit.NewStore 0).1 =
        Outcome.noAvailableIPs) ∧
      (Finset.univ.filter (fun i :
            Fin ([config.IPInfo.mk "eth0" "10.0.0.1" 4,
                  config.IPInfo.mk "eth0" "10.0.0.2" 4].length) =>
          selectIP [config.IPInfo.mk "eth0" "10.0.0.1" 4,
              config.IPInfo.mk "eth0" "10.0.0.2" 4] i.val =
            config.IPInfo.mk "eth0" "10.0.0.2" 4)).card =
        [config.IPInfo.mk "eth0" "10.0.0.1" 4,
          config.IPInfo.mk "eth0" "10.0.0.2" 4].count (config.IPInfo.mk "eth0" "10.0.0.2" 4) :=
  ⟨((@c6_random_egress_amended ℕ
        (config.Env.mk (fun _ => none) (fun a b => a == b) (fun _ => false)
          (fun _ => false) (fun _ => false) (fun _ => true) (fun _ => "") (some []))
        (config.Config.mk ["eth0"])
        (Request.mk "" none "example.com" "/" false) 0 ratelimit.NewStore 0 rfl).2.1
      rfl).1,
   (@c6_random_egress_amended ℕ
        (config.Env.mk (fun _ => none) (fun a b => a == b) (fun _ => false)
          (fun _ => false) (fun _ => false) (fun _ => true) (fun _ => "") (some []))
        (config.Config.mk ["eth0"])
        (Request.mk "" none "example.com" "/" false) 0 ratelimit.NewStore 0 rfl).2.2.2
      [config.IPInfo.mk "eth0" "10.0.0.1" 4, config.IPInfo.mk "eth0" "10.0.0.2" 4]
      (config.IPInfo.mk "eth0" "10.0.0.2" 4)⟩

open http_server in
/-- C9: with no loaded configuration, a request with a parseable
`X-Egress-IP` skips the permitted-address check entirely — it is never
rejected with Forbidden and proceeds to the rate-limit/dispatch stage with
exactly that address — and InternalServerError ("server not configured")
occurs exactly when the header is absent. -/
theorem c9_nil_config_skips_validation {IP : Type} (env : config.Env IP) (req : Request)
    (rng : ℕ) (st : ratelimit.Store) (now : ℚ) :
    (req.egressHeader ≠ "" → ∀ ip : IP, env.parseIP req.egressHeader = some ip →
      handleProxy none env req rng st now =
          rateLimitAndDispatch req req.egressHeader ip st now ∧
        (handleProxy none env req rng st now).1 ≠ Outcome.forbidden) ∧
      ((handleProxy none env req rng st now).1 = Outcome.serverNotConfigured ↔
        req.egressHeader = "") := by
  constructor
  · intro hhdr ip hip
    simp only [handleProxy, chooseEgressIP, if_neg hhdr, hip]
    refine ⟨by trivial, ?_⟩
    rcases rld_outcome_cases req req.egressHeader ip st now with h | h | h <;>
      rw [h] <;> simp
  · by_cases hhdr : req.egressHeader = ""
    · simp only [handleProxy, chooseEgressIP, if_pos hhdr]
      exact ⟨fun _ => hhdr, fun _ => by trivial⟩
    · simp only [handleProxy, chooseEgressIP, if_neg hhdr]
      constructor
      · intro hcon
        exfalso
        cases hip : env.parseIP req.egressHeader with
        | none => rw [hip] at hcon; cases hcon
        | some ip =>
          rw [hip] at hcon
          rcases rld_outcome_cases req req.egressHeader ip st now with h | h | h <;>
            rw [h] at hcon <;> cases hcon
      · intro hcon
        exact absurd hcon hhdr

open http_server in
/-- Witness for C9: with a nil configuration, the parseable candidate
"1.2.3.4" proceeds and is not Forbidden. -/
theorem c9_nil_config_skips_validation_witness :
    @http_server.handleProxy ℕ none
        (config.Env.mk (fun s => if s = "1.2.3.4" then some 7 else none)
          (fun a b => a == b) (fun _ => false) (fun _ => false) (fun _ => false)
          (fun _ => true) (fun _ => "") (some []))
        (Request.mk "1.2.3.4" none "example.com" "/" false) 0 ratelimit.NewStore 0 =
      rateLimitAndDispatch (Request.mk "1.2.3.4" none "example.com" "/" false)
        "1.2.3.4" 7 ratelimit.NewStore 0 ∧
    (@http_server.handleProxy ℕ none
        (config.Env.mk (fun s => if s = "1.2.3.4" then some 7 else none)
          (fun a b => a == b) (fun _ => false) (fun _ => false) (fun _ => false)
          (fun _ => true) (fun _ => "") (some []))
        (Request.mk "1.2.3.4" none "example.com" "/" false) 0 ratelimit.NewStore 0).1 ≠
      Outcome.forbidden :=
  (@c9_nil_config_skips_validation ℕ
      (config.Env.mk (fun s => if s = "1.2.3.4" then some 7 else none)
        (fun a b => a == b) (fun _ => false) (fun _ => false) (fun _ => false)
        (fun _ => true) (fun _ => "") (some []))
      (Request.mk "1.2.3.4" none "example.com" "/" false) 0 ratelimit.NewStore 0).1
    (by decide) 7 (by decide)

namespace http_server

/-- Byte class of `textproto`'s valid header-field bytes (letters, digits,
and the token specials); anything else makes canonicalization a no-op. -/
def validHeaderFieldChar (c : Char) : Bool :=
  c.isUpper || c.isLower || c.isDigit || c == '!' || c == '#' || c == '$' ||
    c == '%' || c == '&' || c == Char.ofNat 39 || c == '*' || c == '+' || c == '-' ||
    c == '.' || c == '^' || c == '_' || c == Char.ofNat 96 || c == '|' || c == '~'

/-- The recasing loop of `textproto.CanonicalMIMEHeaderKey`: uppercase at
the start and after each hyphen, lowercase elsewhere. -/
def canonicalChars : Bool → List Char → List Char
  | _, [] => []
  | upper, c :: rest =>
    let c2 := if upper then c.toUpper else c.toLower
    c2 :: canonicalChars (c2 == '-') rest

/-- `textproto.CanonicalMIMEHeaderKey`, as used by `http.Header.Get/Del`. -/
def CanonicalMIMEHeaderKey (s : String) : String :=
  if s.data.all validHeaderFieldChar then String.mk (canonicalChars true s.data) else s

/-- `unicode.IsSpace` restricted to the ASCII space characters
(`strings.TrimSpace`'s fast path). -/
def isSpaceGo (c : Char) : Bool :=
  c == ' ' || c == '\t' || c == '\n' || c == Char.ofNat 11 || c == Char.ofNat 12 || c == '\r'

/-- `strings.TrimSpace`. -/
def trimSpace (s : String) : String :=
  String.mk (((s.data.dropWhile isSpaceGo).reverse.dropWhile isSpaceGo).reverse)

/-- `strings.Split(s, ",")` on the character list. -/
def splitOnComma : List Char → List (List Char)
  | [] => [[]]
  | c :: rest =>
    if c = ',' then [] :: splitOnComma rest
    else
      match splitOnComma rest with
      | [] => [[c]]
      | g :: gs => (c :: g) :: gs

/-- `strings.Split(s, ",")`. -/
def splitStr (s : String) : List String := (splitOnComma s.data).map String.mk

/-- `http.Header`: a map from canonical header names to value lists,
modelled as an association list. -/
abbrev Header := List (String × List String)

/-- `http.Header.Get`: first value stored under the canonical key, or "". -/
def headerGet (h : Header) (key : String) : String :=
  match alookup h (CanonicalMIMEHeaderKey key) with
  | some (v :: _) => v
  | _ => ""

/-- `http.Header.Del`: remove the canonical key. -/
def headerDel (h : Header) (key : String) : Header :=
  h.filter (fun kv => !(kv.1 == CanonicalMIMEHeaderKey key))

/-- `var hopByHopHeaders = []string{...}` from main.go. -/
def hopByHopHeaders : List String :=
  ["Connection", "Keep-Alive", "Proxy-Authenticate", "Proxy-Authorization",
   "Te", "Trailer", "Transfer-Encoding", "Upgrade"]

/-- `func removeHopByHopHeaders(h http.Header)` from main.go: first delete
every name listed in the `Connection` value (comma-separated, trimmed),
then delete the fixed hop-by-hop set. -/
def removeHopByHopHeaders (h : Header) : Header :=
  hopByHopHeaders.foldl (fun acc k => headerDel acc k)
    (if headerGet h "Connection" ≠ "" then
      (splitStr (headerGet h "Connection")).foldl
        (fun acc f => headerDel acc (trimSpace f)) h
    else h)

lemma headerDel_alookup (h : Header) (key k : String) :
    alookup (headerDel h key) k =
      if CanonicalMIMEHeaderKey key = k then none else alookup h k := by
  induction h with
  | nil =>
    simp only [headerDel, List.filter_nil, alookup]
    split <;> rfl
  | cons kv rest ih =>
    obtain ⟨k0, vs⟩ := kv
    by_cases hk0 : k0 = CanonicalMIMEHeaderKey key
    · have hb : (!(k0 == CanonicalMIMEHeaderKey key)) = false := by simp [hk0]
      rw [show headerDel ((k0, vs) :: rest) key = headerDel rest key from by
        simp [headerDel, List.filter_cons, hb]]
      rw [ih]
      by_cases hkk : CanonicalMIMEHeaderKey key = k
      · simp [hkk]
      · have hk0k : k0 ≠ k := by rw [hk0]; exact hkk
        simp [hkk, alookup, hk0k]
    · have hb : (!(k0 == CanonicalMIMEHeaderKey key)) = true := by simp [hk0]
      rw [show headerDel ((k0, vs) :: rest) key = (k0, vs) :: headerDel rest key from by
        simp [headerDel, List.filter_cons, hb]]
      by_cases hk0k : k0 = k
      · subst hk0k
        have hck : CanonicalMIMEHeaderKey key ≠ k0 := fun hc => hk0 hc.symm
        simp [alookup, hck]
      · simp [alookup, hk0k, ih]

lemma foldlDel_alookup (names : List String) (h : Header) (k : String) :
    alookup (names.foldl (fun acc f => headerDel acc f) h) k =
      if ∃ f ∈ names, CanonicalMIMEHeaderKey f = k then none else alookup h k := by
  induction names generalizing h with
  | nil => simp
  | cons f fs ih =>
    rw [List.foldl_cons, ih]
    by_cases hf : CanonicalMIMEHeaderKey f = k
    · have hall : ∃ g ∈ f :: fs, CanonicalMIMEHeaderKey g = k :=
        ⟨f, List.mem_cons_self f fs, hf⟩
      rw [if_pos hall]
      by_cases hfs : ∃ g ∈ fs, CanonicalMIMEHeaderKey g = k
      · rw [if_pos hfs]
      · rw [if_neg hfs, headerDel_alookup, if_pos hf]
    · by_cases hfs : ∃ g ∈ fs, CanonicalMIMEHeaderKey g = k
      · obtain ⟨g, hg, hgk⟩ := hfs
        rw [if_pos ⟨g, hg, hgk⟩, if_pos ⟨g, List.mem_cons_of_mem f hg, hgk⟩]
      · have hno : ¬ ∃ g ∈ f :: fs, CanonicalMIMEHeaderKey g = k := by
          rintro ⟨g, hg, hgk⟩
          rcases List.mem_cons.mp hg with rfl | hg'
          · exact hf hgk
          · exact hfs ⟨g, hg', hgk⟩
        rw [if_neg hfs, if_neg hno, headerDel_alookup, if_neg hf]

end http_server

open http_server in
/-- C7: stripping hop-by-hop headers removes the fixed set {Connection,
Keep-Alive, Proxy-Authenticate, Proxy-Authorization, Te, Trailer,
Transfer-Encoding, Upgrade} and every header whose (canonicalized) name is
listed comma-separated and trimmed inside the Connection header value —
including names outside the fixed set — while every other header keeps its
value list unchanged. -/
theorem c7_remove_hop_by_hop (h : Header) (k : String) :
    ((k ∈ hopByHopHeaders ∨
        (headerGet h "Connection" ≠ "" ∧
          ∃ f ∈ splitStr (headerGet h "Connection"),
            CanonicalMIMEHeaderKey (trimSpace f) = k)) →
      alookup (removeHopByHopHeaders h) k = none) ∧
      (¬ (k ∈ hopByHopHeaders ∨
          (headerGet h "Connection" ≠ "" ∧
            ∃ f ∈ splitStr (headerGet h "Connection"),
              CanonicalMIMEHeaderKey (trimSpace f) = k)) →
        alookup (removeHopByHopHeaders h) k = alookup h k) := by
  have hfix : ∀ g ∈ hopByHopHeaders, CanonicalMIMEHeaderKey g = g := by decide
  constructor
  · intro hdel
    unfold removeHopByHopHeaders
    rw [foldlDel_alookup]
    by_cases hfixed : ∃ g ∈ hopByHopHeaders, CanonicalMIMEHeaderKey g = k
    · rw [if_pos hfixed]
    · rw [if_neg hfixed]
      rcases hdel with hk | ⟨hconn, f, hf, hfk⟩
      · exact absurd ⟨k, hk, hfix k hk⟩ hfixed
      · rw [if_pos hconn, ← List.foldl_map, foldlDel_alookup,
          if_pos ⟨trimSpace f, List.mem_map_of_mem trimSpace hf, hfk⟩]
  · intro hkeep
    have hnotfix : k ∉ hopByHopHeaders := fun hc => hkeep (Or.inl hc)
    have hnotconn : ¬ (headerGet h "Connection" ≠ "" ∧
        ∃ f ∈ splitStr (headerGet h "Connection"),
          CanonicalMIMEHeaderKey (trimSpace f) = k) :=
      fun hc => hkeep (Or.inr hc)
    unfold removeHopByHopHeaders
    rw [foldlDel_alookup]
    have hfixed : ¬ ∃ g ∈ hopByHopHeaders, CanonicalMIMEHeaderKey g = k := by
      rintro ⟨g, hg, hgk⟩
      have hkg : k = g := by rw [← hgk, hfix g hg]
      exact hnotfix (hkg ▸ hg)
    rw [if_neg hfixed]
    by_cases hconn : headerGet h "Connection" ≠ ""
    · rw [if_pos hconn, ← List.foldl_map, foldlDel_alookup]
      have hnone : ¬ ∃ f ∈ (splitStr (headerGet h "Connection")).map trimSpace,
          CanonicalMIMEHeaderKey f = k := by
        rintro ⟨f, hf, hfk⟩
        rcases List.mem_map.mp hf with ⟨f0, hf0, rfl⟩
        exact hnotconn ⟨hconn, f0, hf0, hfk⟩
      rw [if_neg hnone]
    · rw [if_neg hconn]

open http_server in
/-- Witness for C7 on the repository's own test header map: `X-Custom`
(listed in Connection) is removed, `Content-Type` is preserved. -/
theorem c7_remove_hop_by_hop_witness :
    alookup (removeHopByHopHeaders
        [("Connection", ["keep-alive, X-Custom"]), ("Keep-Alive", ["timeout=5"]),
         ("X-Custom", ["value"]), ("Content-Type", ["application/json"])]) "X-Custom" =
      none ∧
    alookup (removeHopByHopHeaders
        [("Connection", ["keep-alive, X-Custom"]), ("Keep-Alive", ["timeout=5"]),
         ("X-Custom", ["value"]), ("Content-Type", ["application/json"])]) "Content-Type" =
      some ["application/json"] :=
  ⟨(c7_remove_hop_by_hop
      [("Connection", ["keep-alive, X-Custom"]), ("Keep-Alive", ["timeout=5"]),
       ("X-Custom", ["value"]), ("Content-Type", ["application/json"])] "X-Custom").1
      (Or.inr ⟨by decide, " X-Custom", by decide, by decide⟩),
   by
    rw [(c7_remove_hop_by_hop
        [("Connection", ["keep-alive, X-Custom"]), ("Keep-Alive", ["timeout=5"]),
         ("X-Custom", ["value"]), ("Content-Type", ["application/json"])]
        "Content-Type").2 (by decide)]
    decide⟩
